import Mathlib

/-!
# Verification of the Orders-API order-placement core

A shallow embedding of the order-placement engine of the Mini Orders API
(`src/orders/orders.service.ts`, `src/products/products.service.ts`),
together with theorems settling the specification claims about it.

Modelling conventions:
* Prisma rows become Lean structures; the durable store is a `DB` record of
  lists of rows.  Primary-key uniqueness of the database is captured by the
  well-formedness predicate `DB.WF`.
* Database-generated order ids are modelled as naturals drawn from a counter.
  Product and user ids are opaque strings, as in the source (UUIDs).
* Monetary amounts (`priceFils`, `totalFils`) and quantities are integers.
  `stock` is an `Int` because the Prisma `decrement` write in
  `OrdersService.create` is unconditional, so nothing in the embedded code
  forces it to stay non-negative.
* JavaScript `Date.now()` timestamps are naturals (milliseconds).
* Each NestJS `throw` site becomes an explicit `ServiceError` value carrying
  the exception class (`ErrKind`) and the structured content of its message.
-/

namespace MiniOrders

/-- Role of an authenticated user (Prisma `Role` enum). -/
inductive Role where
  | ADMIN
  | CUSTOMER
deriving DecidableEq, Repr

/-- Order status (Prisma `OrderStatus` enum): the four known statuses. -/
inductive OrderStatus where
  | PENDING
  | PAID
  | CANCELLED
  | FULFILLED
deriving DecidableEq, Repr

/-- A catalog product row: `products(id, title, priceFils, stock, isActive)`. -/
structure Product where
  id : String
  title : String
  priceFils : Int
  stock : Int
  isActive : Bool
deriving DecidableEq, Repr

/-- One entry of `CreateOrderDto.items`: `{ productId, qty }`. -/
structure OrderItemInput where
  productId : String
  qty : Int
deriving DecidableEq, Repr

/-- A persisted order line item: the fields pushed into `orderItems` inside
`OrdersService.create`. -/
structure OrderItemRec where
  productId : String
  qty : Int
  unitPriceFils : Int
  lineTotalFils : Int
deriving DecidableEq, Repr

/-- An order row, `orders(id, userId, status, totalFils, createdAt)`, with its
line items. -/
structure OrderRec where
  id : Nat
  userId : String
  status : OrderStatus
  totalFils : Int
  createdAt : Nat
  items : List OrderItemRec
deriving DecidableEq, Repr

/-- The `select: { id, title, priceFils }` projection of a product that the
`include` clauses of `OrdersService` attach to returned line items. -/
structure ProductInfo where
  id : String
  title : String
  priceFils : Int
deriving DecidableEq, Repr

/-- A line item as returned to the caller: the stored record plus the nested
`product` object when the Prisma query's `include` asked for it.  The fresh
path of `create` includes it; the idempotent-replay `findUnique`, which uses
`include: { items: true }` with no nested `product`, does not. -/
structure ReturnedItem where
  item : OrderItemRec
  product : Option ProductInfo
deriving DecidableEq, Repr

/-- The order payload returned by `OrdersService.create`. -/
structure OrderPayload where
  id : Nat
  userId : String
  status : OrderStatus
  totalFils : Int
  createdAt : Nat
  items : List ReturnedItem
deriving DecidableEq, Repr

/-- Which NestJS exception class a rejection is raised with.
`ConflictException` is imported by `orders.service.ts` but never thrown. -/
inductive ErrKind where
  | badRequest
  | notFound
  | conflict
deriving DecidableEq, Repr

/-- Structured content of each `throw` site of the embedded services:
* `emptyItems` — `'Order must contain at least one item'`;
* `productsNotFound` — `'One or more products not found'`;
* `productNotFound id` — the per-item `'Product ... not found'` message;
* `nonPositiveQty` — `'Quantity must be greater than 0'`;
* `insufficientStock title available requested` — the insufficient-stock
  message, which interpolates the product title and both quantities;
* `orderNotFound id` — `'Order with ID ... not found'`. -/
inductive ErrMsg where
  | emptyItems
  | productsNotFound
  | productNotFound (productId : String)
  | nonPositiveQty
  | insufficientStock (title : String) (available requested : Int)
  | orderNotFound (orderId : Nat)
deriving DecidableEq, Repr

/-- A thrown NestJS exception: its class and its message content. -/
structure ServiceError where
  kind : ErrKind
  msg : ErrMsg
deriving DecidableEq, Repr

/-- The durable store: product, order rows and the id counter. -/
structure DB where
  products : List Product
  orders : List OrderRec
  nextOrderId : Nat
deriving DecidableEq, Repr

/-- One entry of the in-process `recentOrders` map. -/
structure CacheEntry where
  timestamp : Nat
  orderId : Nat
deriving DecidableEq, Repr

/-- The in-process idempotency state: the
`recentOrders : Map<string, { timestamp, orderId }>` map — modelled as an
association list keyed by the `` `${userId}-${idempotencyKey}` `` string; a
JS `Map` has unique keys, captured by `Cache.WF` below — together with the
eviction timers still pending.  Every cache write schedules an unconditional
`setTimeout(() => recentOrders.delete(cacheKey), 10000)` with no handle kept
and no timestamp guard (`orders.service.ts` lines 150–153), so `timers`
records each scheduled deletion as `(cacheKey, fire time)`.  A timer
callback runs on the event loop before any request handler that starts at or
after its fire time; `fireDueTimers` applies all callbacks due by a given
instant, and the trace semantics (`runCalls`, and the two-call composition
of the idempotency theorems) runs it before each call. -/
structure Cache where
  entries : List (String × CacheEntry)
  timers : List (String × Nat)
deriving DecidableEq, Repr

deriving instance DecidableEq for Except

/-- Keys of the entry map are unique, as they are in a JS `Map`; the
association-list encoding makes this a well-formedness condition. -/
def Cache.WF (c : Cache) : Prop :=
  (c.entries.map (·.1)).Nodup

instance (c : Cache) : Decidable c.WF := by
  unfold Cache.WF; infer_instance

/-- Models `Map.get`. -/
def cacheLookup (c : Cache) (k : String) : Option CacheEntry :=
  (c.entries.find? (fun e => e.1 == k)).map (·.2)

/-- Models the cache write of `OrdersService.create` (lines 143–154):
`Map.set` replaces any existing entry for the key, and the accompanying
`setTimeout` schedules an unconditional deletion of the key 10000 ms after
the write. -/
def cacheSet (c : Cache) (k : String) (v : CacheEntry) (now : Nat) : Cache :=
  ⟨(k, v) :: c.entries.eraseP (fun e => e.1 == k),
   (k, now + 10000) :: c.timers⟩

/-- Runs every pending eviction callback due by `now`: each due timer
executes `recentOrders.delete(cacheKey)`, which removes the key's entry
unconditionally — even one refreshed by a later write — and the fired timers
are discarded. -/
def fireDueTimers (c : Cache) (now : Nat) : Cache :=
  ⟨c.entries.filter (fun e => !(c.timers.any (fun t => t.1 == e.1 && t.2 ≤ now))),
   c.timers.filter (fun t => !(t.2 ≤ now))⟩

/-- The stock stored for a product id in a list of rows (`none` when no such
row). -/
def stockOfList? (l : List Product) (pid : String) : Option Int :=
  (l.find? (fun p => p.id == pid)).map (·.stock)

/-- The stock currently stored for a product id (`none` when no such row). -/
def DB.stockOf? (db : DB) (pid : String) : Option Int :=
  stockOfList? db.products pid

/-- Database well-formedness: primary keys are unique and the id counter is
ahead of every existing order id. -/
def DB.WF (db : DB) : Prop :=
  (db.products.map (·.id)).Nodup ∧ (db.orders.map (·.id)).Nodup ∧
    ∀ o ∈ db.orders, o.id < db.nextOrderId

instance (db : DB) : Decidable db.WF := by
  unfold DB.WF; infer_instance

/-- Every product row has non-negative stock. -/
def DB.stocksNonneg (db : DB) : Prop :=
  ∀ p ∈ db.products, 0 ≤ p.stock

instance (db : DB) : Decidable db.stocksNonneg := by
  unfold DB.stocksNonneg; infer_instance

/-- Embeds `ProductsService.findByIds`: all product rows whose id is among `ids` and
which are active (`where: { id: { in: ids }, isActive: true }`). -/
def findByIds (db : DB) (ids : List String) : List Product :=
  db.products.filter (fun p => ids.contains p.id && p.isActive)

/-- The per-item validation/pricing loop of `OrdersService.create`: looks
each item's product up in the resolved map, rejects on a missing product,
a non-positive quantity, or insufficient stock (in that source order of
checks, reporting the first offending item), and otherwise accumulates the
line items and the running total. -/
def priceItems (products : List Product) :
    List OrderItemInput → Except ServiceError (List OrderItemRec × Int)
  | [] => .ok ([], 0)
  | item :: rest =>
    match products.find? (fun p => p.id == item.productId) with
    | none => .error ⟨.badRequest, .productNotFound item.productId⟩
    | some product =>
      if item.qty ≤ 0 then
        .error ⟨.badRequest, .nonPositiveQty⟩
      else if product.stock < item.qty then
        .error ⟨.badRequest, .insufficientStock product.title product.stock item.qty⟩
      else
        match priceItems products rest with
        | .error e => .error e
        | .ok (ois, total) =>
          .ok (⟨item.productId, item.qty, product.priceFils, product.priceFils * item.qty⟩ :: ois,
               product.priceFils * item.qty + total)

/-- The validation stage of `OrdersService.create` before the transaction:
empty-list check, catalog resolution via `findByIds`, the aggregate
`products.length !== productIds.length` check, then the per-item loop. -/
def validateAndPrice (db : DB) (items : List OrderItemInput) :
    Except ServiceError (List OrderItemRec × Int) :=
  if items.length = 0 then .error ⟨.badRequest, .emptyItems⟩
  else
    let productIds := items.map (·.productId)
    let products := findByIds db productIds
    if products.length ≠ productIds.length then .error ⟨.badRequest, .productsNotFound⟩
    else priceItems products items

/-- One `tx.product.update({ where: { id }, data: { stock: { decrement } } })`:
an unconditional relative decrement of the current stored stock. -/
def decrementStock (products : List Product) (pid : String) (qty : Int) : List Product :=
  products.map (fun p => if p.id == pid then { p with stock := p.stock - qty } else p)

/-- The decrement loop of the `$transaction`, one update per ordered item. -/
def applyDecrements (products : List Product) (items : List OrderItemInput) : List Product :=
  items.foldl (fun acc item => decrementStock acc item.productId item.qty) products

/-- The `$transaction` body: create the order row with its line items in
`PENDING` state, then decrement each ordered product's stock. -/
def commitTx (db : DB) (userId : String) (now : Nat) (items : List OrderItemInput)
    (orderItems : List OrderItemRec) (totalFils : Int) : OrderRec × DB :=
  let newOrder : OrderRec := ⟨db.nextOrderId, userId, .PENDING, totalFils, now, orderItems⟩
  (newOrder, ⟨applyDecrements db.products items, newOrder :: db.orders, db.nextOrderId + 1⟩)

/-- The nested `product` object (`select: { id, title, priceFils }`) attached
to a returned line item. -/
def productInfoFor (db : DB) (pid : String) : Option ProductInfo :=
  (db.products.find? (fun p => p.id == pid)).map (fun p => ⟨p.id, p.title, p.priceFils⟩)

/-- An order as returned to the caller; `withProduct` records whether the
query's `include` asked for the nested `product` object on each item. -/
def payloadOf (db : DB) (o : OrderRec) (withProduct : Bool) : OrderPayload :=
  ⟨o.id, o.userId, o.status, o.totalFils, o.createdAt,
   o.items.map (fun it => ⟨it, if withProduct then productInfoFor db it.productId else none⟩)⟩

/-- Distinguishes the two non-throwing return paths of `OrdersService.create`:
the idempotent-replay early return (whose payload is the `findUnique` result,
`none` when the cached order id resolves to nothing) and a freshly created
order. -/
inductive CreateResult where
  | replayed (payload : Option OrderPayload)
  | created (payload : OrderPayload)
deriving DecidableEq, Repr

/-- The fresh-order path of `OrdersService.create` (everything after the
idempotency-cache check): validate and price, run the transaction, then
record the result in the cache when an idempotency key was supplied. -/
def createFresh (db : DB) (cache : Cache) (now : Nat) (userId : String)
    (items : List OrderItemInput) (idempotencyKey : Option String) :
    Except ServiceError CreateResult × DB × Cache :=
  match validateAndPrice db items with
  | .error e => (.error e, db, cache)
  | .ok (orderItems, totalFils) =>
    let (newOrder, db') := commitTx db userId now items orderItems totalFils
    let cache' :=
      match idempotencyKey with
      | some key => cacheSet cache (userId ++ "-" ++ key) ⟨now, newOrder.id⟩ now
      | none => cache
    (.ok (.created (payloadOf db' newOrder true)), db', cache')

/-- Embeds `OrdersService.create`.  With an idempotency key whose cache entry is
younger than 5000 ms, returns the cached order re-read from the store
(`include: { items: true }`, so without nested product objects) and performs
no writes; otherwise proceeds down the fresh path. -/
def create (db : DB) (cache : Cache) (now : Nat) (userId : String)
    (items : List OrderItemInput) (idempotencyKey : Option String) :
    Except ServiceError CreateResult × DB × Cache :=
  match idempotencyKey with
  | some key =>
    match cacheLookup cache (userId ++ "-" ++ key) with
    | some recent =>
      if now - recent.timestamp < 5000 then
        (.ok (.replayed ((db.orders.find? (fun o => o.id == recent.orderId)).map
            (fun o => payloadOf db o false))), db, cache)
      else
        createFresh db cache now userId items idempotencyKey
    | none => createFresh db cache now userId items idempotencyKey
  | none => createFresh db cache now userId items idempotencyKey

/-- One `placeOrder` request: its arrival time and arguments. -/
structure Call where
  now : Nat
  userId : String
  items : List OrderItemInput
  idempotencyKey : Option String

/-- A sequence of `create` calls executed one after another; before each
call the eviction callbacks due by that call's time have run. -/
def runCalls (db : DB) (cache : Cache) : List Call → DB × Cache
  | [] => (db, cache)
  | c :: rest =>
    let r := create db (fireDueTimers cache c.now) c.now c.userId c.items c.idempotencyKey
    runCalls r.2.1 r.2.2 rest

/-- One admissible interleaving of concurrent `create` calls on the Node.js
event loop: every request's catalog read (`findByIds`) and validation
complete against the initial state before any request's `$transaction` runs;
the transactions then commit one after another.  The decrement inside the
transaction is the unconditional `decrementStock`, and no constraint in the
source stops it from driving `stock` negative. -/
def runValidateFirst (db : DB) (now : Nat)
    (reqs : List (String × List OrderItemInput)) :
    DB × List (Except ServiceError OrderRec) :=
  (reqs.map (fun r => (r, validateAndPrice db r.2))).foldl
    (fun acc vr =>
      match vr.2 with
      | .error e => (acc.1, acc.2 ++ [.error e])
      | .ok (ois, total) =>
        let r := commitTx acc.1 vr.1.1 now vr.1.2 ois total
        (r.2, acc.2 ++ [.ok r.1]))
    (db, [])

/-- The caller identity (`req.user`) seen by the query layer. -/
structure UserRef where
  id : String
  role : Role
deriving DecidableEq, Repr

/-- The `meta` object of a paginated response. -/
structure PageMeta where
  page : Nat
  limit : Nat
  total : Nat
  totalPages : Nat
  hasNext : Bool
  hasPrev : Bool
deriving DecidableEq, Repr

/-- A page of orders as returned by `OrdersService.findAll`. -/
structure OrdersPage where
  data : List OrderRec
  meta : PageMeta
deriving DecidableEq, Repr

/-- The Prisma `where` clause of the order queries: an admin sees every
order, any other caller only rows with their own `userId`. -/
def orderVisible (user : UserRef) (o : OrderRec) : Bool :=
  user.role == Role.ADMIN || o.userId == user.id

/-- Insertion into a list sorted by `createdAt` descending. -/
def insertDesc (o : OrderRec) : List OrderRec → List OrderRec
  | [] => [o]
  | x :: xs => if o.createdAt ≤ x.createdAt then x :: insertDesc o xs else o :: x :: xs

/-- Models `orderBy: createdAt desc`. -/
def sortByCreatedAtDesc (l : List OrderRec) : List OrderRec :=
  l.foldr insertDesc []

/-- Embeds `OrdersService.findAll`: role-scoped `where`, `createdAt` descending,
`skip = (page - 1) * limit`, `take = limit`, with the count query and the
derived pagination metadata. -/
def findAll (db : DB) (page limit : Nat) (user : UserRef) : OrdersPage :=
  let skip := (page - 1) * limit
  let visible := (sortByCreatedAtDesc db.orders).filter (orderVisible user)
  let total := (db.orders.filter (orderVisible user)).length
  let totalPages := (total + limit - 1) / limit
  ⟨(visible.drop skip).take limit,
   ⟨page, limit, total, totalPages, decide (page < totalPages), decide (1 < page)⟩⟩

/-- Embeds `OrdersService.findOne`: a `findUnique` on the id, additionally filtered to
the caller's own `userId` for a non-admin, throwing `NotFoundException` when
nothing matches. -/
def findOne (db : DB) (id : Nat) (user : UserRef) : Except ServiceError OrderRec :=
  match db.orders.find? (fun o => o.id == id && orderVisible user o) with
  | some o => .ok o
  | none => .error ⟨.notFound, .orderNotFound id⟩

/-- Embeds `OrdersService.updateStatus`: existence check through `findOne` with an
admin scope, then an unguarded status update returning the updated row. -/
def updateStatus (db : DB) (id : Nat) (status : OrderStatus) :
    Except ServiceError (OrderRec × DB) :=
  match findOne db id ⟨"", Role.ADMIN⟩ with
  | .error e => .error e
  | .ok o =>
    .ok ({ o with status := status },
      ⟨db.products,
       db.orders.map (fun x => if x.id == id then { x with status := status } else x),
       db.nextOrderId⟩)

/-! ### Generic list lemmas -/

theorem find?_congr_on {α : Type} {p q : α → Bool} (l : List α)
    (h : ∀ a ∈ l, p a = q a) : l.find? p = l.find? q := by
  induction l with
  | nil => rfl
  | cons x xs ih =>
    have hx : p x = q x := h x (List.mem_cons_self x xs)
    cases hq : q x with
    | true =>
      rw [List.find?_cons_of_pos _ (hx ▸ hq), List.find?_cons_of_pos _ hq]
    | false =>
      rw [List.find?_cons_of_neg _ (by simp [hx, hq]), List.find?_cons_of_neg _ (by simp [hq])]
      exact ih (fun a ha => h a (List.mem_cons_of_mem _ ha))

theorem find?_filter_eq {α : Type} (l : List α) (q p : α → Bool) :
    (l.filter q).find? p = l.find? (fun a => q a && p a) := by
  induction l with
  | nil => rfl
  | cons x xs ih =>
    cases hq : q x with
    | true =>
      rw [List.filter_cons_of_pos hq]
      cases hp : p x with
      | true =>
        rw [List.find?_cons_of_pos _ hp, List.find?_cons_of_pos _ (by simp [hq, hp])]
      | false =>
        rw [List.find?_cons_of_neg _ (by simp [hp]),
          List.find?_cons_of_neg _ (by simp [hp]), ih]
    | false =>
      rw [List.filter_cons_of_neg (by simp [hq]),
        List.find?_cons_of_neg _ (by simp [hq]), ih]

theorem find?_map_pred {α : Type} (f : α → α) (p : α → Bool)
    (hf : ∀ a, p (f a) = p a) (l : List α) :
    (l.map f).find? p = (l.find? p).map f := by
  induction l with
  | nil => rfl
  | cons x xs ih =>
    cases hp : p x with
    | true =>
      rw [List.map_cons, List.find?_cons_of_pos _ (by rw [hf, hp]),
        List.find?_cons_of_pos _ hp]
      rfl
    | false =>
      rw [List.map_cons, List.find?_cons_of_neg _ (by simp [hf, hp]),
        List.find?_cons_of_neg _ (by simp [hp]), ih]

theorem find?_eq_some_of_nodup_keys {α β : Type} [DecidableEq β] (key : α → β)
    (pr : α → Bool) (l : List α) (a : α) (hnd : (l.map key).Nodup) (ha : a ∈ l)
    (hpr : pr a = true) (hkey : ∀ b, pr b = true → key b = key a) :
    l.find? pr = some a := by
  induction l with
  | nil => cases ha
  | cons x xs ih =>
    rw [List.map_cons, List.nodup_cons] at hnd
    rcases List.mem_cons.1 ha with rfl | hmem
    · exact List.find?_cons_of_pos _ hpr
    · cases hx : pr x with
      | true =>
        exact absurd (hkey x hx ▸ List.mem_map_of_mem key hmem) hnd.1
      | false =>
        rw [List.find?_cons_of_neg _ (by simp [hx])]
        exact ih hnd.2 hmem

/-! ### Idempotency-cache lemmas -/

theorem cacheLookup_cacheSet_self (c : Cache) (k : String) (v : CacheEntry) (now : Nat) :
    cacheLookup (cacheSet c k v now) k = some v := by
  simp [cacheLookup, cacheSet, List.find?_cons_of_pos]

/-! ### Stock-decrement lemmas -/

/-- The total quantity the decrement loop subtracts from a given product id. -/
def qtySum (items : List OrderItemInput) (pid : String) : Int :=
  ((items.filter (fun it => it.productId == pid)).map (·.qty)).sum

theorem applyDecrements_eq_map (items : List OrderItemInput) (l : List Product) :
    applyDecrements l items
      = l.map (fun p => { p with stock := p.stock - qtySum items p.id }) := by
  induction items generalizing l with
  | nil =>
    have h : ∀ p ∈ l, { p with stock := p.stock - qtySum [] p.id } = p := by
      intro p _; cases p; simp [qtySum]
    exact ((List.map_congr_left h).trans (List.map_id l)).symm
  | cons it rest ih =>
    show applyDecrements (decrementStock l it.productId it.qty) rest = _
    rw [ih, decrementStock, List.map_map]
    apply List.map_congr_left
    intro p _
    by_cases h : p.id = it.productId
    · have hq : qtySum (it :: rest) p.id = it.qty + qtySum rest p.id := by
        simp [qtySum, List.filter_cons, h.symm]
      rw [h] at hq
      simp [Function.comp, h, hq, sub_sub]
    · have hq : qtySum (it :: rest) p.id = qtySum rest p.id := by
        simp [qtySum, List.filter_cons, Ne.symm h]
      simp [Function.comp, h, hq]

theorem stockOfList?_applyDecrements (l : List Product) (items : List OrderItemInput)
    (pid : String) :
    stockOfList? (applyDecrements l items) pid
      = (stockOfList? l pid).map (fun s => s - qtySum items pid) := by
  rw [stockOfList?, applyDecrements_eq_map,
    find?_map_pred (fun p => { p with stock := p.stock - qtySum items p.id })
      (fun p => p.id == pid) (fun a => rfl) l]
  cases hfind : l.find? (fun p => p.id == pid) with
  | none => simp [stockOfList?, hfind]
  | some p =>
    have hid : p.id = pid := by
      have := List.find?_some hfind
      simpa using this
    simp [stockOfList?, hfind, hid]

theorem filter_eq_single_of_nodup_map (items : List OrderItemInput) (it : OrderItemInput)
    (hnd : (items.map (·.productId)).Nodup) (hmem : it ∈ items) :
    items.filter (fun x => x.productId == it.productId) = [it] := by
  induction items with
  | nil => cases hmem
  | cons x xs ih =>
    rw [List.map_cons, List.nodup_cons] at hnd
    rcases List.mem_cons.1 hmem with rfl | hmem'
    · rw [List.filter_cons_of_pos (by simp)]
      have : xs.filter (fun y => y.productId == it.productId) = [] := by
        rw [List.filter_eq_nil_iff]
        intro a ha hcontra
        exact hnd.1 ((by simpa using hcontra : a.productId = it.productId) ▸
          List.mem_map_of_mem (·.productId) ha)
      rw [this]
    · have hne : x.productId ≠ it.productId := by
        intro hcontra
        exact hnd.1 (hcontra ▸ List.mem_map_of_mem (·.productId) hmem')
      rw [List.filter_cons_of_neg (by simp [hne])]
      exact ih hnd.2 hmem'

theorem qtySum_of_mem (items : List OrderItemInput) (it : OrderItemInput)
    (hnd : (items.map (·.productId)).Nodup) (hmem : it ∈ items) :
    qtySum items it.productId = it.qty := by
  rw [qtySum, filter_eq_single_of_nodup_map items it hnd hmem]
  simp

theorem qtySum_of_not_mem (items : List OrderItemInput) (pid : String)
    (h : ∀ it ∈ items, it.productId ≠ pid) : qtySum items pid = 0 := by
  rw [qtySum, List.filter_eq_nil_iff.2 (fun it hit => by simp [h it hit])]
  rfl

/-! ### Catalog-resolution lemmas

The aggregate `products.length !== productIds.length` check of
`OrdersService.create` compares the number of *distinct* active catalog rows
matching the requested ids against the raw item count.  These lemmas
characterise exactly when it passes. -/

/-- A product id resolves to some active catalog row. -/
def resolvesActive (db : DB) (i : String) : Prop :=
  ∃ p ∈ db.products, p.isActive = true ∧ p.id = i

instance (db : DB) (i : String) : Decidable (resolvesActive db i) := by
  unfold resolvesActive; infer_instance

/-- The first active catalog row carrying a product id. -/
def activeProductFor (db : DB) (pid : String) : Option Product :=
  db.products.find? (fun p => p.isActive && p.id == pid)

theorem findByIds_ids_nodup (db : DB) (ids : List String)
    (hnd : (db.products.map (·.id)).Nodup) :
    ((findByIds db ids).map (·.id)).Nodup := by
  rw [findByIds]
  exact ((List.filter_sublist db.products).map (·.id)).nodup hnd

theorem findByIds_toFinset (db : DB) (ids : List String) :
    ((findByIds db ids).map (·.id)).toFinset
      = ids.toFinset.filter (fun i => resolvesActive db i) := by
  ext i
  simp only [List.mem_toFinset, List.mem_map, Finset.mem_filter, findByIds,
    List.mem_filter, Bool.and_eq_true, resolvesActive]
  constructor
  · rintro ⟨p, ⟨hmem, hin, hact⟩, rfl⟩
    exact ⟨by simpa using hin, p, hmem, hact, rfl⟩
  · rintro ⟨hin, p, hmem, hact, rfl⟩
    exact ⟨p, ⟨hmem, by simpa using hin, hact⟩, rfl⟩

theorem findByIds_length_eq_iff (db : DB) (ids : List String)
    (hnd : (db.products.map (·.id)).Nodup) :
    (findByIds db ids).length = ids.length
      ↔ ids.Nodup ∧ ∀ i ∈ ids, resolvesActive db i := by
  have hnods : ((findByIds db ids).map (·.id)).Nodup := findByIds_ids_nodup db ids hnd
  have hlen : (findByIds db ids).length = ((findByIds db ids).map (·.id)).toFinset.card := by
    rw [List.toFinset_card_of_nodup hnods, List.length_map]
  rw [hlen, findByIds_toFinset]
  constructor
  · intro h
    have h1 : (ids.toFinset.filter fun i => resolvesActive db i).card ≤ ids.toFinset.card :=
      Finset.card_filter_le _ _
    have h2 : ids.toFinset.card ≤ ids.length := ids.toFinset_card_le
    have hcard : ids.toFinset.card = ids.length := by omega
    have hnodup : ids.Nodup := by
      rw [List.card_toFinset] at hcard
      have heq : ids.dedup = ids := ids.dedup_sublist.eq_of_length hcard
      exact heq ▸ ids.nodup_dedup
    have hfilter : ids.toFinset.filter (fun i => resolvesActive db i) = ids.toFinset :=
      Finset.eq_of_subset_of_card_le (Finset.filter_subset _ _) (by omega)
    refine ⟨hnodup, fun i hi => ?_⟩
    have hmem : i ∈ ids.toFinset.filter (fun i => resolvesActive db i) := by
      rw [hfilter]; exact List.mem_toFinset.2 hi
    exact (Finset.mem_filter.1 hmem).2
  · rintro ⟨hnodup, hres⟩
    rw [Finset.filter_true_of_mem (fun i hi => hres i (List.mem_toFinset.1 hi)),
      List.toFinset_card_of_nodup hnodup]

theorem find?_findByIds (db : DB) (ids : List String) (pid : String) (hpid : pid ∈ ids) :
    (findByIds db ids).find? (fun p => p.id == pid) = activeProductFor db pid := by
  rw [findByIds, find?_filter_eq, activeProductFor]
  apply find?_congr_on
  intro p _
  by_cases h : p.id = pid
  · subst h; simp [hpid]
  · have hb : (p.id == pid) = false := by simp [h]
    simp [hb]

theorem activeProductFor_some_spec {db : DB} {pid : String} {p : Product}
    (h : activeProductFor db pid = some p) :
    p ∈ db.products ∧ p.isActive = true ∧ p.id = pid := by
  have hmem := List.mem_of_find?_eq_some h
  have hpr := List.find?_some h
  simp only [Bool.and_eq_true, beq_iff_eq] at hpr
  exact ⟨hmem, hpr.1, hpr.2⟩

theorem activeProductFor_eq_some (db : DB) (p : Product) (pid : String)
    (hnd : (db.products.map (·.id)).Nodup) (hp : p ∈ db.products)
    (hact : p.isActive = true) (hpid : p.id = pid) :
    activeProductFor db pid = some p :=
  find?_eq_some_of_nodup_keys (·.id) _ _ p hnd hp (by simp [hact, hpid])
    (fun b hb => by
      simp only [Bool.and_eq_true, beq_iff_eq] at hb
      show b.id = p.id
      rw [hb.2, hpid])

theorem stockOf?_of_activeProductFor {db : DB} {pid : String} {p : Product}
    (hnd : (db.products.map (·.id)).Nodup)
    (h : activeProductFor db pid = some p) : db.stockOf? pid = some p.stock := by
  obtain ⟨hmem, _, hpid⟩ := activeProductFor_some_spec h
  rw [DB.stockOf?, stockOfList?,
    find?_eq_some_of_nodup_keys (·.id) _ _ p hnd hmem (by simp [hpid])
      (fun b hb => by
        simp only [beq_iff_eq] at hb
        show b.id = p.id
        rw [hb, hpid])]
  rfl

/-! ### Pricing-loop lemmas -/

/-- What one successful run of the pricing loop guarantees for the pair of an
input item and the line-item record built from it. -/
def ItemPriced (products : List Product) (it : OrderItemInput) (oi : OrderItemRec) : Prop :=
  oi.productId = it.productId ∧ oi.qty = it.qty ∧
    ∃ p, products.find? (fun q => q.id == it.productId) = some p ∧
      0 < it.qty ∧ it.qty ≤ p.stock ∧ oi.unitPriceFils = p.priceFils ∧
      oi.lineTotalFils = p.priceFils * it.qty

theorem priceItems_ok (products : List Product) (items : List OrderItemInput)
    (ois : List OrderItemRec) (total : Int)
    (h : priceItems products items = .ok (ois, total)) :
    total = (ois.map (·.lineTotalFils)).sum ∧ List.Forall₂ (ItemPriced products) items ois := by
  induction items generalizing ois total with
  | nil =>
    rw [priceItems] at h
    obtain ⟨rfl, rfl⟩ : ([] : List OrderItemRec) = ois ∧ (0 : Int) = total := by
      simpa using h
    exact ⟨rfl, List.Forall₂.nil⟩
  | cons it rest ih =>
    rw [priceItems] at h
    split at h
    · cases h
    · rename_i p hfind
      split at h
      · cases h
      · rename_i hqty
        split at h
        · cases h
        · rename_i hstock
          split at h
          · cases h
          · rename_i ois' total' hrec
            obtain ⟨rfl, rfl⟩ :
                (⟨it.productId, it.qty, p.priceFils, p.priceFils * it.qty⟩ :: ois' = ois)
                  ∧ (p.priceFils * it.qty + total' = total) := by
              simpa using h
            obtain ⟨ht, hf⟩ := ih ois' total' hrec
            refine ⟨by simp [ht], List.Forall₂.cons ?_ hf⟩
            exact ⟨rfl, rfl, p, hfind, by omega, by omega, rfl, rfl⟩

/-- Membership-aware monotonicity for `List.Forall₂`. -/
theorem forall₂_mem_imp {α β : Type} {R S : α → β → Prop} :
    ∀ {l₁ : List α} {l₂ : List β}, List.Forall₂ R l₁ l₂ →
      (∀ a b, a ∈ l₁ → R a b → S a b) → List.Forall₂ S l₁ l₂ := by
  intro l₁ l₂ h
  induction h with
  | nil => intro _; exact List.Forall₂.nil
  | @cons a b l₁' l₂' hr _ ih =>
    intro himp
    exact List.Forall₂.cons (himp a b (List.mem_cons_self a l₁') hr)
      (ih (fun a' b' ha' => himp a' b' (List.mem_cons_of_mem _ ha')))

/-- What a successful item-pair guarantees, phrased against the catalog. -/
def ItemPricedCatalog (db : DB) (it : OrderItemInput) (oi : OrderItemRec) : Prop :=
  oi.productId = it.productId ∧ oi.qty = it.qty ∧
    ∃ p, activeProductFor db it.productId = some p ∧
      0 < it.qty ∧ it.qty ≤ p.stock ∧ oi.unitPriceFils = p.priceFils ∧
      oi.lineTotalFils = p.priceFils * it.qty

/-- Full characterisation of a successful run of the validation stage of
`OrdersService.create`. -/
theorem validateAndPrice_ok (db : DB) (items : List OrderItemInput)
    (ois : List OrderItemRec) (total : Int)
    (hnd : (db.products.map (·.id)).Nodup)
    (h : validateAndPrice db items = .ok (ois, total)) :
    items ≠ [] ∧ (items.map (·.productId)).Nodup ∧
      total = (ois.map (·.lineTotalFils)).sum ∧
      List.Forall₂ (ItemPricedCatalog db) items ois := by
  rw [validateAndPrice] at h
  split at h
  · cases h
  · next hne =>
    simp only [] at h
    split at h
    · cases h
    · next hlen =>
      rw [not_ne_iff] at hlen
      have hresolve := (findByIds_length_eq_iff db (items.map (·.productId)) hnd).1
        (by rw [hlen, List.length_map])
      obtain ⟨ht, hf⟩ := priceItems_ok _ _ _ _ h
      refine ⟨by simpa using hne, hresolve.1, ht, ?_⟩
      refine forall₂_mem_imp hf ?_
      intro it oi hmem hip
      obtain ⟨h1, h2, p, hfind, hrest⟩ := hip
      refine ⟨h1, h2, p, ?_, hrest⟩
      rw [← find?_findByIds db (items.map (·.productId)) it.productId
        (List.mem_map_of_mem _ hmem)]
      exact hfind

/-! ### Case analysis of `create` -/

theorem forall₂_left {α β : Type} {R : α → β → Prop} :
    ∀ {l₁ : List α} {l₂ : List β}, List.Forall₂ R l₁ l₂ → ∀ a ∈ l₁, ∃ b, R a b := by
  intro l₁ l₂ h
  induction h with
  | nil => intro a ha; cases ha
  | @cons a b l₁' l₂' hr _ ih =>
    intro a' ha'
    rcases List.mem_cons.1 ha' with rfl | hmem
    · exact ⟨b, hr⟩
    · exact ih a' hmem

theorem createFresh_error {db : DB} {cache : Cache} {now : Nat} {userId : String}
    {items : List OrderItemInput} {key : Option String} {e : ServiceError}
    {db' : DB} {c' : Cache}
    (h : createFresh db cache now userId items key = (.error e, db', c')) :
    validateAndPrice db items = .error e ∧ db' = db ∧ c' = cache := by
  rw [createFresh] at h
  split at h
  · rename_i e' hv
    simp only [Prod.mk.injEq] at h
    obtain ⟨he, hdb, hc⟩ := h
    obtain rfl : e' = e := by simpa using he
    exact ⟨hv, hdb.symm, hc.symm⟩
  · rename_i ois total hv
    simp only [commitTx, Prod.mk.injEq] at h
    exact absurd h.1 (by simp)

theorem createFresh_created {db : DB} {cache : Cache} {now : Nat} {userId : String}
    {items : List OrderItemInput} {key : Option String} {o : OrderPayload}
    {db' : DB} {c' : Cache}
    (h : createFresh db cache now userId items key = (.ok (.created o), db', c')) :
    ∃ ois total,
      validateAndPrice db items = .ok (ois, total) ∧
      db' = ⟨applyDecrements db.products items,
             ⟨db.nextOrderId, userId, .PENDING, total, now, ois⟩ :: db.orders,
             db.nextOrderId + 1⟩ ∧
      o = payloadOf
            ⟨applyDecrements db.products items,
             ⟨db.nextOrderId, userId, .PENDING, total, now, ois⟩ :: db.orders,
             db.nextOrderId + 1⟩
            ⟨db.nextOrderId, userId, .PENDING, total, now, ois⟩ true ∧
      (∀ k, key = some k →
        c' = cacheSet cache (userId ++ "-" ++ k) ⟨now, db.nextOrderId⟩ now) ∧
      (key = none → c' = cache) := by
  rw [createFresh] at h
  split at h
  · simp only [Prod.mk.injEq] at h
    exact absurd h.1 (by simp)
  · rename_i ois total hv
    simp only [commitTx, Prod.mk.injEq] at h
    obtain ⟨ho, hdb, hc⟩ := h
    refine ⟨ois, total, hv, hdb.symm, by simpa using ho.symm, ?_, ?_⟩
    · rintro k2 rfl
      exact hc.symm
    · rintro rfl
      exact hc.symm

theorem createFresh_not_replayed {db : DB} {cache : Cache} {now : Nat} {userId : String}
    {items : List OrderItemInput} {key : Option String} {po : Option OrderPayload}
    {db' : DB} {c' : Cache}
    (h : createFresh db cache now userId items key = (.ok (.replayed po), db', c')) :
    False := by
  rw [createFresh] at h
  split at h
  · simp only [Prod.mk.injEq] at h
    exact absurd h.1 (by simp)
  · rename_i ois total hv
    simp only [commitTx, Prod.mk.injEq] at h
    exact absurd h.1 (by simp)

theorem create_cases (db : DB) (cache : Cache) (now : Nat) (userId : String)
    (items : List OrderItemInput) (key : Option String) :
    create db cache now userId items key = createFresh db cache now userId items key
    ∨ ∃ k recent, key = some k
        ∧ cacheLookup cache (userId ++ "-" ++ k) = some recent
        ∧ now - recent.timestamp < 5000
        ∧ create db cache now userId items key =
            (.ok (.replayed ((db.orders.find? (fun o => o.id == recent.orderId)).map
              (fun o => payloadOf db o false))), db, cache) := by
  cases key with
  | none => left; rfl
  | some k =>
    cases hl : cacheLookup cache (userId ++ "-" ++ k) with
    | none =>
      left
      rw [create, hl]
    | some recent =>
      by_cases ht : now - recent.timestamp < 5000
      · right
        refine ⟨k, recent, rfl, hl, ht, ?_⟩
        rw [create, hl]
        simp [ht]
      · left
        rw [create, hl]
        simp [ht]

theorem create_error {db : DB} {cache : Cache} {now : Nat} {userId : String}
    {items : List OrderItemInput} {key : Option String} {e : ServiceError}
    {db' : DB} {c' : Cache}
    (h : create db cache now userId items key = (.error e, db', c')) :
    validateAndPrice db items = .error e ∧ db' = db ∧ c' = cache := by
  rcases create_cases db cache now userId items key with hc | ⟨k, recent, hk, hl, ht, hc⟩
  · exact createFresh_error (hc ▸ h)
  · rw [hc] at h
    simp only [Prod.mk.injEq] at h
    exact absurd h.1 (by simp)

theorem create_replayed {db : DB} {cache : Cache} {now : Nat} {userId : String}
    {items : List OrderItemInput} {key : Option String} {po : Option OrderPayload}
    {db' : DB} {c' : Cache}
    (h : create db cache now userId items key = (.ok (.replayed po), db', c')) :
    db' = db ∧ c' = cache ∧
      ∃ k recent, key = some k
        ∧ cacheLookup cache (userId ++ "-" ++ k) = some recent
        ∧ now - recent.timestamp < 5000
        ∧ po = (db.orders.find? (fun o => o.id == recent.orderId)).map
            (fun o => payloadOf db o false) := by
  rcases create_cases db cache now userId items key with hc | ⟨k, recent, hk, hl, ht, hc⟩
  · exact (createFresh_not_replayed (hc ▸ h)).elim
  · rw [hc] at h
    simp only [Prod.mk.injEq] at h
    obtain ⟨hpo, hdb, hcc⟩ := h
    refine ⟨hdb.symm, hcc.symm, k, recent, hk, hl, ht, ?_⟩
    simpa using hpo.symm

theorem create_created {db : DB} {cache : Cache} {now : Nat} {userId : String}
    {items : List OrderItemInput} {key : Option String} {o : OrderPayload}
    {db' : DB} {c' : Cache}
    (h : create db cache now userId items key = (.ok (.created o), db', c')) :
    ∃ ois total,
      validateAndPrice db items = .ok (ois, total) ∧
      db' = ⟨applyDecrements db.products items,
             ⟨db.nextOrderId, userId, .PENDING, total, now, ois⟩ :: db.orders,
             db.nextOrderId + 1⟩ ∧
      o = payloadOf
            ⟨applyDecrements db.products items,
             ⟨db.nextOrderId, userId, .PENDING, total, now, ois⟩ :: db.orders,
             db.nextOrderId + 1⟩
            ⟨db.nextOrderId, userId, .PENDING, total, now, ois⟩ true ∧
      (∀ k, key = some k →
        c' = cacheSet cache (userId ++ "-" ++ k) ⟨now, db.nextOrderId⟩ now) ∧
      (key = none → c' = cache) := by
  rcases create_cases db cache now userId items key with hc | ⟨k, recent, hk, hl, ht, hc⟩
  · exact createFresh_created (hc ▸ h)
  · rw [hc] at h
    simp only [Prod.mk.injEq] at h
    exact absurd h.1 (by simp)

/-! ### Preservation of well-formedness and stock non-negativity -/

theorem applyDecrements_map_id (l : List Product) (items : List OrderItemInput) :
    (applyDecrements l items).map (·.id) = l.map (·.id) := by
  rw [applyDecrements_eq_map, List.map_map]
  rfl

theorem create_preserves_WF (db : DB) (cache : Cache) (now : Nat) (userId : String)
    (items : List OrderItemInput) (key : Option String) (hwf : db.WF) :
    (create db cache now userId items key).2.1.WF := by
  rcases hr : create db cache now userId items key with ⟨r, db', c'⟩
  show db'.WF
  cases r with
  | error e =>
    obtain ⟨-, rfl, -⟩ := create_error hr
    exact hwf
  | ok cr =>
    cases cr with
    | replayed po =>
      obtain ⟨rfl, -, -⟩ := create_replayed hr
      exact hwf
    | created o =>
      obtain ⟨ois, total, hv, rfl, -, -⟩ := create_created hr
      obtain ⟨hp, ho, hb⟩ := hwf
      refine ⟨?_, ?_, ?_⟩
      · show ((applyDecrements db.products items).map (·.id)).Nodup
        rw [applyDecrements_map_id]
        exact hp
      · rw [List.map_cons, List.nodup_cons]
        refine ⟨fun hmem => ?_, ho⟩
        obtain ⟨o', ho', hid⟩ := List.mem_map.1 hmem
        exact absurd (hid ▸ hb o' ho') (lt_irrefl _)
      · intro o' ho'
        rcases List.mem_cons.1 ho' with rfl | hmem
        · exact Nat.lt_succ_self _
        · exact Nat.lt_succ_of_lt (hb o' hmem)

theorem create_preserves_nonneg (db : DB) (cache : Cache) (now : Nat) (userId : String)
    (items : List OrderItemInput) (key : Option String)
    (hwf : db.WF) (hnn : db.stocksNonneg) :
    (create db cache now userId items key).2.1.stocksNonneg := by
  rcases hr : create db cache now userId items key with ⟨r, db', c'⟩
  show db'.stocksNonneg
  cases r with
  | error e =>
    obtain ⟨-, rfl, -⟩ := create_error hr
    exact hnn
  | ok cr =>
    cases cr with
    | replayed po =>
      obtain ⟨rfl, -, -⟩ := create_replayed hr
      exact hnn
    | created o =>
      obtain ⟨ois, total, hv, rfl, -, -⟩ := create_created hr
      intro q hq
      show 0 ≤ q.stock
      have hq' : q ∈ applyDecrements db.products items := hq
      rw [applyDecrements_eq_map] at hq'
      obtain ⟨p, hp, rfl⟩ := List.mem_map.1 hq'
      show 0 ≤ p.stock - qtySum items p.id
      obtain ⟨-, hndids, -, hfa⟩ := validateAndPrice_ok db items ois total hwf.1 hv
      by_cases hc : ∃ it ∈ items, it.productId = p.id
      · obtain ⟨it, hit, hpid⟩ := hc
        obtain ⟨oi, hR⟩ := forall₂_left hfa it hit
        obtain ⟨-, -, pc, hpc, hq0, hqle, -, -⟩ := hR
        obtain ⟨hpcmem, hpcact, hpcid⟩ := activeProductFor_some_spec hpc
        have hpeq : pc = p :=
          List.inj_on_of_nodup_map hwf.1 hpcmem hp (by rw [hpcid, hpid])
        have hqs : qtySum items p.id = it.qty := by
          rw [← hpid]
          exact qtySum_of_mem items it hndids hit
        rw [hqs]
        rw [hpeq] at hqle
        omega
      · push_neg at hc
        rw [qtySum_of_not_mem items p.id hc]
        have := hnn p hp
        omega

theorem runCalls_preserves (calls : List Call) :
    ∀ db cache, DB.WF db → DB.stocksNonneg db →
      (runCalls db cache calls).1.WF ∧ (runCalls db cache calls).1.stocksNonneg := by
  induction calls with
  | nil => intro db cache hwf hnn; exact ⟨hwf, hnn⟩
  | cons c rest ih =>
    intro db cache hwf hnn
    rw [runCalls]
    exact ih _ _
      (create_preserves_WF db (fireDueTimers cache c.now) c.now c.userId c.items
        c.idempotencyKey hwf)
      (create_preserves_nonneg db (fireDueTimers cache c.now) c.now c.userId c.items
        c.idempotencyKey hwf hnn)

/-! ### Query-layer lemmas -/

theorem mem_insertDesc {x o : OrderRec} :
    ∀ {l : List OrderRec}, x ∈ insertDesc o l ↔ x = o ∨ x ∈ l := by
  intro l
  induction l with
  | nil => simp [insertDesc]
  | cons y ys ih =>
    rw [insertDesc]
    by_cases h : o.createdAt ≤ y.createdAt
    · rw [if_pos h]
      rw [List.mem_cons, ih, List.mem_cons]
      tauto
    · rw [if_neg h]
      rw [List.mem_cons, List.mem_cons]

theorem mem_sortByCreatedAtDesc {x : OrderRec} :
    ∀ {l : List OrderRec}, x ∈ sortByCreatedAtDesc l ↔ x ∈ l := by
  intro l
  induction l with
  | nil => simp [sortByCreatedAtDesc]
  | cons y ys ih =>
    show x ∈ insertDesc y (sortByCreatedAtDesc ys) ↔ _
    rw [mem_insertDesc, ih]
    simp

/-! ### Concrete fixtures used by witnesses and counterexamples -/

/-- A catalog with a single active product `p1` (price 10000 fils, stock 5). -/
def db0 : DB := ⟨[⟨"p1", "Widget", 10000, 5, true⟩], [], 0⟩

/-- An empty idempotency cache with no pending timers. -/
def emptyCache : Cache := ⟨[], []⟩

/-- The payload returned by the first (fresh) demo placement. -/
def o1c : OrderPayload :=
  ⟨0, "u1", .PENDING, 20000, 0, [⟨⟨"p1", 2, 10000, 20000⟩, some ⟨"p1", "Widget", 10000⟩⟩]⟩

/-- The store after the first demo placement: stock decremented to 3, the
order row persisted, id counter advanced. -/
def db1c : DB :=
  ⟨[⟨"p1", "Widget", 10000, 3, true⟩],
   [⟨0, "u1", .PENDING, 20000, 0, [⟨"p1", 2, 10000, 20000⟩]⟩], 1⟩

/-- The cache after the first demo placement: the entry plus its pending
10-second eviction timer. -/
def c1c : Cache := ⟨[("u1-abc", ⟨0, 0⟩)], [("u1-abc", 10000)]⟩

/-- The payload the idempotent replay returns: same order id, but the line
items carry no nested `product` object. -/
def o2c : OrderPayload :=
  ⟨0, "u1", .PENDING, 20000, 0, [⟨⟨"p1", 2, 10000, 20000⟩, none⟩]⟩

/-- A product with a single unit of stock, the contended resource of the
concurrency scenario. -/
def raceDB : DB := ⟨[⟨"p1", "Widget", 100, 1, true⟩], [], 0⟩

/-! ### Claim theorems -/

/-- C7: a `placeOrder` call rejected during validation (empty item list,
unresolvable product id, non-positive quantity, or insufficient stock)
performs no side effects: the durable store — order and line-item rows and
product stock — and the idempotency cache are exactly as before the call. -/
theorem C7_rejection_before_side_effects (db : DB) (cache : Cache) (now : Nat)
    (userId : String) (items : List OrderItemInput) (key : Option String)
    (e : ServiceError) (db' : DB) (c' : Cache)
    (h : create db cache now userId items key = (.error e, db', c')) :
    db' = db ∧ c' = cache ∧ db'.orders = db.orders ∧ db'.products = db.products := by
  obtain ⟨-, rfl, rfl⟩ := create_error h
  exact ⟨rfl, rfl, rfl, rfl⟩

/-- Witness for C7 at a concrete insufficient-stock rejection. -/
theorem C7_witness :
    db0 = db0 ∧ emptyCache = emptyCache ∧ db0.orders = db0.orders ∧
      db0.products = db0.products :=
  C7_rejection_before_side_effects db0 emptyCache 0 "u1" [⟨"p1", 9⟩] none
    ⟨.badRequest, .insufficientStock "Widget" 5 9⟩ db0 emptyCache (by decide)

/-- C10: an item list that mentions the same product id in two or more
entries is always rejected with the aggregate products-not-found error —
even when the product exists, is active and has ample stock — because
`findByIds` returns distinct rows and their count is compared against the
raw (non-deduplicated) item count before the per-item loop runs. -/
theorem C10_duplicate_ids_rejected (db : DB) (items : List OrderItemInput)
    (hwf : db.WF) (hdup : ¬ (items.map (·.productId)).Nodup) :
    validateAndPrice db items = .error ⟨.badRequest, .productsNotFound⟩
    ∧ ∀ (cache : Cache) (now : Nat) (userId : String),
        create db cache now userId items none
          = (.error ⟨.badRequest, .productsNotFound⟩, db, cache) := by
  have hne : ¬ items.length = 0 := by
    intro h0
    rw [List.length_eq_zero] at h0
    subst h0
    exact hdup (by simp)
  have hlen : (findByIds db (items.map (·.productId))).length
      ≠ (items.map (·.productId)).length := by
    intro heq
    exact hdup ((findByIds_length_eq_iff db _ hwf.1).1 heq).1
  have hval : validateAndPrice db items = .error ⟨.badRequest, .productsNotFound⟩ := by
    rw [validateAndPrice, if_neg hne]
    simp only []
    rw [if_pos hlen]
  refine ⟨hval, fun cache now userId => ?_⟩
  show createFresh db cache now userId items none = _
  rw [createFresh, hval]

/-- Witness for C10: a duplicated id of an existing, active product whose
stock covers the combined quantity is still rejected as not-found. -/
theorem C10_witness :
    validateAndPrice db0 [⟨"p1", 1⟩, ⟨"p1", 1⟩]
        = .error ⟨.badRequest, .productsNotFound⟩
    ∧ create db0 emptyCache 0 "u1" [⟨"p1", 1⟩, ⟨"p1", 1⟩] none
        = (.error ⟨.badRequest, .productsNotFound⟩, db0, emptyCache) :=
  ⟨(C10_duplicate_ids_rejected db0 [⟨"p1", 1⟩, ⟨"p1", 1⟩] (by decide) (by decide)).1,
   (C10_duplicate_ids_rejected db0 [⟨"p1", 1⟩, ⟨"p1", 1⟩] (by decide) (by decide)).2
     emptyCache 0 "u1"⟩

/-- C2 (code bug): in the admissible interleaving where both concurrent
requests complete their catalog reads and validation against the initial
state before either transaction runs, two single-unit placements against a
product with stock 1 BOTH succeed and the committed stock is −1.  The
decrement inside the transaction is an unconditional `stock -= qty`, so no
commit fails with an insufficient-stock conflict, the `min(N, S) = 1`
success count claimed for N = 2, S = 1 is violated, and a negative stock is
observed. -/
theorem C2_unconditional_decrement_race :
    (runValidateFirst raceDB 0 [("u1", [⟨"p1", 1⟩]), ("u2", [⟨"p1", 1⟩])]).2.countP
        (fun r => r.toOption.isSome) = 2
    ∧ (runValidateFirst raceDB 0 [("u1", [⟨"p1", 1⟩]), ("u2", [⟨"p1", 1⟩])]).2.countP
        (fun r => r.toOption.isSome) ≠ min 2 1
    ∧ (runValidateFirst raceDB 0 [("u1", [⟨"p1", 1⟩]), ("u2", [⟨"p1", 1⟩])]).1.stockOf? "p1"
        = some (-1)
    ∧ ¬ (runValidateFirst raceDB 0 [("u1", [⟨"p1", 1⟩]), ("u2", [⟨"p1", 1⟩])]).1.stocksNonneg := by
  decide

/-- C5 counterexample: a placement rejected for insufficient stock raises a
`BadRequestException`, not the claimed `ConflictError`; a placement with an
unknown product id raises a `BadRequestException`, not the claimed
`NotFoundError`. -/
theorem C5_counterexample :
    (create db0 emptyCache 0 "u1" [⟨"p1", 9⟩] none).1
        = .error ⟨.badRequest, .insufficientStock "Widget" 5 9⟩
    ∧ ErrKind.badRequest ≠ ErrKind.conflict
    ∧ (create db0 emptyCache 0 "u1" [⟨"missing", 1⟩] none).1
        = .error ⟨.badRequest, .productsNotFound⟩
    ∧ ErrKind.badRequest ≠ ErrKind.notFound := by decide

/-- C6 counterexample: when an earlier item has a non-positive quantity and
only a later item has an unresolvable product id, the reported error is the
aggregate products-not-found error — the length check runs before the
per-item loop — not the earlier item's quantity error as claimed. -/
theorem C6_counterexample :
    validateAndPrice db0 [⟨"p1", 0⟩, ⟨"missing", 1⟩]
        = .error ⟨.badRequest, .productsNotFound⟩
    ∧ validateAndPrice db0 [⟨"p1", 0⟩, ⟨"missing", 1⟩]
        ≠ .error ⟨.badRequest, .nonPositiveQty⟩ := by decide

/-- Projects the order id out of a fresh-creation result. -/
def createdId? (r : Except ServiceError CreateResult) : Option Nat :=
  match r with
  | .ok (.created o) => some o.id
  | _ => none

/-- First step of the eviction trace: tokened placement at 0 ms. -/
def evict0 : Except ServiceError CreateResult × DB × Cache :=
  create db0 (fireDueTimers emptyCache 0) 0 "u1" [⟨"p1", 1⟩] (some "abc")

/-- Second step: the same buyer and token at 6000 ms — past the first
suppression window, so a fresh order that refreshes the cache entry. -/
def evict1 : Except ServiceError CreateResult × DB × Cache :=
  create evict0.2.1 (fireDueTimers evict0.2.2 6000) 6000 "u1" [⟨"p1", 1⟩] (some "abc")

/-- Third step: the same buyer and token at 10500 ms, only 4500 ms after the
second placement.  The first placement's 10-second timer fired at 10000 ms
and unconditionally deleted the refreshed entry, so this call misses the
cache. -/
def evict2 : Except ServiceError CreateResult × DB × Cache :=
  create evict1.2.1 (fireDueTimers evict1.2.2 10500) 10500 "u1" [⟨"p1", 1⟩] (some "abc")

/-- C3 counterexample, refuting both parts of the claim as stated.  Shape:
the duplicate submission within the suppression window references the same
order id and leaves the store and cache untouched, but its payload is not
the original result in the same shape as a fresh success — the replayed
line items carry no nested `product` object, while the fresh ones do.
Eviction: in the three-call trace `evict0`/`evict1`/`evict2`, the stale
10-second deletion timer of the first placement evicts the entry the second
placement refreshed, so the second and third submissions — same buyer and
token, 4500 ms apart, inside the suppression window — return two different
order ids and stock is decremented for each of the three calls. -/
theorem C3_counterexample :
    create db0 emptyCache 0 "u1" [⟨"p1", 2⟩] (some "abc")
        = (.ok (.created o1c), db1c, c1c)
    ∧ create db1c (fireDueTimers c1c 1000) 1000 "u1" [⟨"p1", 2⟩] (some "abc")
        = (.ok (.replayed (some o2c)), db1c, fireDueTimers c1c 1000)
    ∧ o2c.id = o1c.id
    ∧ o2c ≠ o1c
    ∧ o1c.items.map (·.product) = [some ⟨"p1", "Widget", 10000⟩]
    ∧ o2c.items.map (·.product) = [none]
    ∧ createdId? evict1.1 = some 1
    ∧ createdId? evict2.1 = some 2
    ∧ (10500 : Nat) - 6000 < 5000
    ∧ createdId? evict1.1 ≠ createdId? evict2.1
    ∧ evict2.2.1.stockOf? "p1" = some 2 := by decide

theorem forall₂_right {α β : Type} {R : α → β → Prop} :
    ∀ {l₁ : List α} {l₂ : List β}, List.Forall₂ R l₁ l₂ → ∀ b ∈ l₂, ∃ a ∈ l₁, R a b := by
  intro l₁ l₂ h
  induction h with
  | nil => intro b hb; cases hb
  | @cons a b l₁' l₂' hr _ ih =>
    intro b' hb'
    rcases List.mem_cons.1 hb' with rfl | hmem
    · exact ⟨a, List.mem_cons_self a l₁', hr⟩
    · obtain ⟨a', ha', hra⟩ := ih b' hmem
      exact ⟨a', List.mem_cons_of_mem _ ha', hra⟩

theorem validateAndPrice_ok_priceItems {db : DB} {items : List OrderItemInput}
    {ois : List OrderItemRec} {total : Int}
    (h : validateAndPrice db items = .ok (ois, total)) :
    priceItems (findByIds db (items.map (·.productId))) items = .ok (ois, total) := by
  rw [validateAndPrice] at h
  split at h
  · cases h
  · simp only [] at h
    split at h
    · cases h
    · exact h

theorem mem_findByIds {db : DB} {ids : List String} {p : Product}
    (hp : p ∈ findByIds db ids) : p ∈ db.products ∧ p.isActive = true := by
  have hm := List.mem_filter.1 hp
  refine ⟨hm.1, ?_⟩
  have h2 := hm.2
  simp only [Bool.and_eq_true] at h2
  exact h2.2

/-- C4: every order created by a successful fresh placement is persisted in
PENDING state; each of its line items has `lineTotalFils` equal to the exact
integer product of the catalog unit price at order time and the requested
quantity; and the order's total equals the sum of its line items'
`lineTotalFils`. -/
theorem C4_success_postcondition (db : DB) (cache : Cache) (now : Nat)
    (userId : String) (items : List OrderItemInput) (key : Option String)
    (o : OrderPayload) (db' : DB) (c' : Cache)
    (h : create db cache now userId items key = (.ok (.created o), db', c')) :
    ∃ rec, db'.orders = rec :: db.orders
      ∧ rec.status = .PENDING ∧ o.status = .PENDING
      ∧ rec.totalFils = (rec.items.map (·.lineTotalFils)).sum
      ∧ o.totalFils = rec.totalFils
      ∧ ∀ oi ∈ rec.items, oi.lineTotalFils = oi.unitPriceFils * oi.qty
          ∧ ∃ p ∈ db.products, p.isActive = true ∧ p.id = oi.productId
              ∧ oi.unitPriceFils = p.priceFils := by
  obtain ⟨ois, total, hv, rfl, rfl, -, -⟩ := create_created h
  obtain ⟨ht, hfa⟩ := priceItems_ok _ _ _ _ (validateAndPrice_ok_priceItems hv)
  refine ⟨⟨db.nextOrderId, userId, .PENDING, total, now, ois⟩,
    rfl, rfl, rfl, ht, rfl, ?_⟩
  intro oi hoi
  obtain ⟨it, hit, h1, h2, p, hfind, h0, hle, hup, hlt⟩ := forall₂_right hfa oi hoi
  constructor
  · rw [hlt, hup, h2]
  · have hpmem := List.mem_of_find?_eq_some hfind
    have hfb := mem_findByIds hpmem
    have hpid : p.id = it.productId := by simpa using List.find?_some hfind
    exact ⟨p, hfb.1, hfb.2, by rw [hpid, ← h1], hup⟩

/-- Witness for C4 at the concrete demo placement. -/
theorem C4_witness :
    ∃ rec, db1c.orders = rec :: db0.orders
      ∧ rec.status = .PENDING ∧ o1c.status = .PENDING
      ∧ rec.totalFils = (rec.items.map (·.lineTotalFils)).sum
      ∧ o1c.totalFils = rec.totalFils
      ∧ ∀ oi ∈ rec.items, oi.lineTotalFils = oi.unitPriceFils * oi.qty
          ∧ ∃ p ∈ db0.products, p.isActive = true ∧ p.id = oi.productId
              ∧ oi.unitPriceFils = p.priceFils :=
  C4_success_postcondition db0 emptyCache 0 "u1" [⟨"p1", 2⟩] (some "abc")
    o1c db1c c1c (by decide)

/-- C8: for a non-admin caller, `findAll` returns only the caller's own
orders for every page and limit, and `findOne` on another buyer's order id
fails with the very same not-found error value as a nonexistent order id:
another buyer's order is never observable, and its existence is not
distinguishable from absence. -/
theorem C8_visibility_isolation (db : DB) (user : UserRef)
    (huser : user.role ≠ Role.ADMIN) :
    (∀ page limit, ∀ o ∈ (findAll db page limit user).data, o.userId = user.id)
    ∧ (∀ oid, (∀ o ∈ db.orders, o.id = oid → o.userId ≠ user.id) →
        findOne db oid user = .error ⟨.notFound, .orderNotFound oid⟩)
    ∧ (∀ oid, (∀ o ∈ db.orders, o.id ≠ oid) →
        findOne db oid user = .error ⟨.notFound, .orderNotFound oid⟩) := by
  have hrole : (user.role == Role.ADMIN) = false := beq_false_of_ne huser
  refine ⟨?_, ?_, ?_⟩
  · intro page limit o ho
    rw [findAll] at ho
    simp only [] at ho
    have h1 : o ∈ (sortByCreatedAtDesc db.orders).filter (orderVisible user) :=
      (List.drop_sublist _ _).subset ((List.take_sublist _ _).subset ho)
    have h2 := (List.mem_filter.1 h1).2
    rw [orderVisible, hrole] at h2
    simpa using h2
  · intro oid hother
    have hnone : db.orders.find?
        (fun o => o.id == oid && orderVisible user o) = none := by
      rw [List.find?_eq_none]
      intro a ha hpred
      rw [orderVisible, hrole] at hpred
      simp only [Bool.false_or, Bool.and_eq_true, beq_iff_eq] at hpred
      exact hother a ha hpred.1 hpred.2
    rw [findOne, hnone]
  · intro oid habs
    have hnone : db.orders.find?
        (fun o => o.id == oid && orderVisible user o) = none := by
      rw [List.find?_eq_none]
      intro a ha hpred
      simp only [Bool.and_eq_true, beq_iff_eq] at hpred
      exact habs a ha hpred.1
    rw [findOne, hnone]

/-- An order owned by buyer `alice`. -/
def aliceOrder : OrderRec := ⟨0, "alice", .PENDING, 0, 0, []⟩

/-- An order owned by buyer `bob`. -/
def bobOrder : OrderRec := ⟨1, "bob", .PENDING, 0, 0, []⟩

/-- A store holding one order of each of two buyers. -/
def dbVis : DB := ⟨[], [aliceOrder, bobOrder], 2⟩

/-- The non-admin caller `bob`. -/
def bobUser : UserRef := ⟨"bob", .CUSTOMER⟩

/-- Witness for C8: `bob` lists only his own orders, and gets the same
not-found error for `alice`'s order id 0 as for the nonexistent id 99. -/
theorem C8_witness :
    (∀ o ∈ (findAll dbVis 1 20 bobUser).data, o.userId = bobUser.id)
    ∧ findOne dbVis 0 bobUser = .error ⟨.notFound, .orderNotFound 0⟩
    ∧ findOne dbVis 99 bobUser = .error ⟨.notFound, .orderNotFound 99⟩ :=
  ⟨(C8_visibility_isolation dbVis bobUser (by decide)).1 1 20,
   (C8_visibility_isolation dbVis bobUser (by decide)).2.1 0 (by decide),
   (C8_visibility_isolation dbVis bobUser (by decide)).2.2 99 (by decide)⟩

/-- C9: for an existing order and any of the four statuses, `updateStatus`
succeeds regardless of the prior status (no transition graph), changes only
that order's status field — buyer id, total, creation timestamp and line
items are unchanged, other rows and the products table untouched — and
returns not-found for an unknown order id. -/
theorem C9_setStatus_contract (db : DB) (oid : Nat) (s : OrderStatus) (hwf : db.WF) :
    (∀ o ∈ db.orders, o.id = oid →
      ∃ o' db', updateStatus db oid s = .ok (o', db')
        ∧ o'.status = s ∧ o'.userId = o.userId ∧ o'.totalFils = o.totalFils
        ∧ o'.createdAt = o.createdAt ∧ o'.items = o.items
        ∧ db'.products = db.products ∧ db'.nextOrderId = db.nextOrderId
        ∧ db'.orders
            = db.orders.map (fun x => if x.id == oid then { x with status := s } else x)
        ∧ ∀ x ∈ db.orders, x.id ≠ oid → x ∈ db'.orders)
    ∧ ((∀ o ∈ db.orders, o.id ≠ oid) →
        updateStatus db oid s = .error ⟨.notFound, .orderNotFound oid⟩) := by
  constructor
  · intro o hmem hid
    have hfind : db.orders.find?
        (fun x => x.id == oid && orderVisible ⟨"", Role.ADMIN⟩ x) = some o := by
      apply find?_eq_some_of_nodup_keys (·.id) _ _ o hwf.2.1 hmem
      · simp [hid, orderVisible]
      · intro b hb
        simp only [orderVisible, Bool.and_eq_true, beq_iff_eq] at hb
        show b.id = o.id
        rw [hb.1, hid]
    refine ⟨{ o with status := s },
      ⟨db.products,
       db.orders.map (fun x => if x.id == oid then { x with status := s } else x),
       db.nextOrderId⟩,
      ?_, rfl, rfl, rfl, rfl, rfl, rfl, rfl, rfl, ?_⟩
    · rw [updateStatus, findOne, hfind]
    · intro x hx hne
      exact List.mem_map.2 ⟨x, hx, by simp [hne]⟩
  · intro habs
    have hnone : db.orders.find?
        (fun x => x.id == oid && orderVisible ⟨"", Role.ADMIN⟩ x) = none := by
      rw [List.find?_eq_none]
      intro a ha hpred
      simp only [Bool.and_eq_true, beq_iff_eq] at hpred
      exact habs a ha hpred.1
    rw [updateStatus, findOne, hnone]

/-- Witness for C9: `alice`'s PENDING order can be set to PAID with every
other field unchanged, and an unknown id yields not-found. -/
theorem C9_witness :
    (∃ o' db', updateStatus dbVis 0 OrderStatus.PAID = .ok (o', db')
      ∧ o'.status = OrderStatus.PAID ∧ o'.userId = aliceOrder.userId
      ∧ o'.totalFils = aliceOrder.totalFils
      ∧ o'.createdAt = aliceOrder.createdAt ∧ o'.items = aliceOrder.items
      ∧ db'.products = dbVis.products ∧ db'.nextOrderId = dbVis.nextOrderId
      ∧ db'.orders = dbVis.orders.map
          (fun x => if x.id == 0 then { x with status := OrderStatus.PAID } else x)
      ∧ ∀ x ∈ dbVis.orders, x.id ≠ 0 → x ∈ db'.orders)
    ∧ updateStatus dbVis 99 OrderStatus.PAID
        = .error ⟨.notFound, .orderNotFound 99⟩ :=
  ⟨(C9_setStatus_contract dbVis 0 .PAID (by decide)).1 aliceOrder (by decide) (by decide),
   (C9_setStatus_contract dbVis 99 .PAID (by decide)).2 (by decide)⟩

/-- C1: starting from a well-formed state in which every product's stock is
non-negative, (i) after any sequence of `create` calls every product's
stock remains non-negative; (ii) a call that creates an order decreases each
ordered product's stored stock by exactly its ordered quantity and leaves
every other product's stock unchanged; and (iii) a call that does not create
an order — a validation rejection or an idempotent replay — leaves the
products table exactly as it was. -/
theorem C1_stock_invariant (db : DB) (cache : Cache) (calls : List Call)
    (hwf : db.WF) (hnn : db.stocksNonneg) :
    (runCalls db cache calls).1.stocksNonneg
    ∧ (∀ (db₀ : DB) (cache₀ : Cache) (now : Nat) (userId : String)
        (items : List OrderItemInput) (key : Option String)
        (o : OrderPayload) (db' : DB) (c' : Cache),
        db₀.WF →
        create db₀ cache₀ now userId items key = (.ok (.created o), db', c') →
        (∀ it ∈ items, db'.stockOf? it.productId
            = (db₀.stockOf? it.productId).map (fun s => s - it.qty))
        ∧ ∀ pid, (∀ it ∈ items, it.productId ≠ pid) →
            db'.stockOf? pid = db₀.stockOf? pid)
    ∧ (∀ (db₀ : DB) (cache₀ : Cache) (now : Nat) (userId : String)
        (items : List OrderItemInput) (key : Option String)
        (r : Except ServiceError CreateResult) (db' : DB) (c' : Cache),
        create db₀ cache₀ now userId items key = (r, db', c') →
        (∀ o, r ≠ .ok (.created o)) → db'.products = db₀.products) := by
  refine ⟨(runCalls_preserves calls db cache hwf hnn).2, ?_, ?_⟩
  · intro db₀ cache₀ now userId items key o db' c' hwf₀ h
    obtain ⟨ois, total, hv, rfl, -, -, -⟩ := create_created h
    obtain ⟨-, hndids, -, -⟩ := validateAndPrice_ok db₀ items ois total hwf₀.1 hv
    constructor
    · intro it hit
      show stockOfList? (applyDecrements db₀.products items) it.productId = _
      rw [stockOfList?_applyDecrements, qtySum_of_mem items it hndids hit]
      rfl
    · intro pid hnot
      show stockOfList? (applyDecrements db₀.products items) pid = _
      rw [stockOfList?_applyDecrements, qtySum_of_not_mem items pid hnot]
      show _ = stockOfList? db₀.products pid
      cases stockOfList? db₀.products pid with
      | none => rfl
      | some s => simp
  · intro db₀ cache₀ now userId items key r db' c' h hnc
    cases r with
    | error e =>
      obtain ⟨-, rfl, -⟩ := create_error h
      rfl
    | ok cr =>
      cases cr with
      | replayed po =>
        obtain ⟨rfl, -, -⟩ := create_replayed h
        rfl
      | created o => exact absurd rfl (hnc o)

/-- Calls driving the C1 witness: a fresh tokened placement, a duplicate
inside the suppression window, an insufficient-stock rejection, and an
untokened placement. -/
def demoCalls : List Call :=
  [⟨0, "u1", [⟨"p1", 2⟩], some "abc"⟩,
   ⟨1000, "u1", [⟨"p1", 2⟩], some "abc"⟩,
   ⟨2000, "u2", [⟨"p1", 9⟩], none⟩,
   ⟨3000, "u2", [⟨"p1", 3⟩], none⟩]

/-- Witness for C1 on a concrete call sequence. -/
theorem C1_witness : (runCalls db0 emptyCache demoCalls).1.stocksNonneg :=
  (C1_stock_invariant db0 emptyCache demoCalls (by decide) (by decide)).1

/-! ### Eviction-timer lemmas -/

theorem cacheLookup_fireDueTimers (c : Cache) (now : Nat) (k : String)
    (h : ∀ t ∈ c.timers, t.1 = k → now < t.2) :
    cacheLookup (fireDueTimers c now) k = cacheLookup c k := by
  have hfind : (c.entries.filter
      (fun e => !(c.timers.any (fun t => t.1 == e.1 && t.2 ≤ now)))).find?
        (fun e => e.1 == k)
      = c.entries.find? (fun e => e.1 == k) := by
    rw [find?_filter_eq]
    apply find?_congr_on
    intro e _
    by_cases hek : e.1 = k
    · have hq : (c.timers.any (fun t => t.1 == e.1 && t.2 ≤ now)) = false := by
        rw [List.any_eq_false]
        intro t htmem
        simp only [Bool.and_eq_true, beq_iff_eq, decide_eq_true_eq, not_and]
        intro ht1
        have hlt := h t htmem (by rw [ht1, hek])
        omega
      show (!(c.timers.any (fun t => t.1 == e.1 && t.2 ≤ now)) && (e.1 == k))
          = (e.1 == k)
      rw [hq]
      rfl
    · have hp : (e.1 == k) = false := by simp [hek]
      show (!(c.timers.any (fun t => t.1 == e.1 && t.2 ≤ now)) && (e.1 == k))
          = (e.1 == k)
      rw [hp, Bool.and_false]
  show ((c.entries.filter _).find? _).map _ = _
  rw [hfind]
  rfl

theorem eraseP_no_key {l : List (String × CacheEntry)} {k : String}
    (hnd : (l.map (·.1)).Nodup) :
    ∀ e ∈ l.eraseP (fun x => x.1 == k), e.1 ≠ k := by
  induction l with
  | nil => intro e he; cases he
  | cons x xs ih =>
    rw [List.map_cons, List.nodup_cons] at hnd
    intro e he
    by_cases hx : x.1 = k
    · rw [List.eraseP_cons_of_pos (by simp [hx])] at he
      intro hek
      exact hnd.1 (by rw [hx, ← hek]; exact List.mem_map_of_mem _ he)
    · rw [List.eraseP_cons_of_neg (by simp [hx])] at he
      rcases List.mem_cons.1 he with rfl | hmem
      · exact hx
      · exact ih hnd.2 e hmem

theorem cacheLookup_fired_cacheSet (c : Cache) (k : String) (v : CacheEntry)
    (tset tnow : Nat) (hwf : c.WF) :
    cacheLookup (fireDueTimers (cacheSet c k v tset) tnow) k = some v
    ∨ cacheLookup (fireDueTimers (cacheSet c k v tset) tnow) k = none := by
  rw [cacheLookup, fireDueTimers, cacheSet]
  simp only []
  cases hq : (((k, tset + 10000) :: c.timers).any (fun t => t.1 == k && t.2 ≤ tnow)) with
  | false =>
    left
    rw [List.filter_cons_of_pos (by simp [hq]), List.find?_cons_of_pos _ (by simp)]
    rfl
  | true =>
    right
    rw [List.filter_cons_of_neg (by simp [hq]), find?_filter_eq,
      List.find?_eq_none.2 ?hnone]
    · rfl
    case hnone =>
      intro e he hpred
      simp only [Bool.and_eq_true, beq_iff_eq] at hpred
      exact eraseP_no_key hwf e he hpred.2

/-- C3 (amended): after a successful tokened placement at `t1`, a second
same-buyer-and-token submission at `t2` strictly inside the 5000 ms
suppression window returns a replay referencing the identical order id and
leaves the store unchanged, so stock is decremented only once — provided no
eviction timer scheduled by an earlier placement of the same cache key falls
due by `t2` (the timer of the placement itself never does inside the
window); the replayed payload's line items omit the nested product object a
fresh success carries; and a submission with `t2 - t1` at or beyond the
window is processed as a new order through the fresh path.  When a stale
same-key timer does fall due inside the window, the duplicate is instead
processed as a new order: see the C3 counterexample's eviction trace. -/
theorem C3_idempotent_replay (db : DB) (cache : Cache) (t1 t2 : Nat)
    (userId key : String) (items items2 : List OrderItemInput)
    (o : OrderPayload) (db1 : DB) (c1 : Cache)
    (hcwf : cache.WF)
    (h1 : create db cache t1 userId items (some key) = (.ok (.created o), db1, c1)) :
    (t2 - t1 < 5000 →
      (∀ t ∈ cache.timers, t.1 = userId ++ "-" ++ key → t2 < t.2) →
      ∃ rec, db1.orders.find? (fun x => x.id == o.id) = some rec
        ∧ create db1 (fireDueTimers c1 t2) t2 userId items2 (some key)
            = (.ok (.replayed (some (payloadOf db1 rec false))), db1,
               fireDueTimers c1 t2)
        ∧ (payloadOf db1 rec false).id = o.id)
    ∧ (¬ t2 - t1 < 5000 →
        create db1 (fireDueTimers c1 t2) t2 userId items2 (some key)
          = createFresh db1 (fireDueTimers c1 t2) t2 userId items2 (some key)) := by
  obtain ⟨ois, total, hv, rfl, rfl, hsome, -⟩ := create_created h1
  have hc1 : c1 = cacheSet cache (userId ++ "-" ++ key) ⟨t1, db.nextOrderId⟩ t1 :=
    hsome key rfl
  subst hc1
  constructor
  · intro ht htimers
    have hown : t2 < t1 + 10000 := by omega
    have hnodue : ∀ t ∈ (cacheSet cache (userId ++ "-" ++ key)
        ⟨t1, db.nextOrderId⟩ t1).timers,
        t.1 = userId ++ "-" ++ key → t2 < t.2 := by
      intro t htm h1t
      rcases List.mem_cons.1 htm with rfl | hmem
      · exact hown
      · exact htimers t hmem h1t
    have hlook : cacheLookup
        (fireDueTimers (cacheSet cache (userId ++ "-" ++ key)
          ⟨t1, db.nextOrderId⟩ t1) t2)
        (userId ++ "-" ++ key) = some ⟨t1, db.nextOrderId⟩ := by
      rw [cacheLookup_fireDueTimers _ _ _ hnodue, cacheLookup_cacheSet_self]
    refine ⟨⟨db.nextOrderId, userId, .PENDING, total, t1, ois⟩, ?_, ?_, ?_⟩
    · exact List.find?_cons_of_pos _ (by simp [payloadOf])
    · rw [create, hlook]
      simp only [ht, if_true]
      rw [List.find?_cons_of_pos _ (by simp)]
      rfl
    · simp [payloadOf]
  · intro ht
    rcases cacheLookup_fired_cacheSet cache (userId ++ "-" ++ key)
        ⟨t1, db.nextOrderId⟩ t1 t2 hcwf with hl | hl
    · rw [create, hl]
      simp only [ht, if_false]
    · rw [create, hl]

/-- Witness for C3 at the concrete demo placement and its replay 1000 ms
later, when only the placement's own (not yet due) timer is pending. -/
theorem C3_witness :
    ∃ rec, db1c.orders.find? (fun x => x.id == o1c.id) = some rec
      ∧ create db1c (fireDueTimers c1c 1000) 1000 "u1" [⟨"p1", 2⟩] (some "abc")
          = (.ok (.replayed (some (payloadOf db1c rec false))), db1c,
             fireDueTimers c1c 1000)
      ∧ (payloadOf db1c rec false).id = o1c.id :=
  (C3_idempotent_replay db0 emptyCache 0 1000 "u1" "abc" [⟨"p1", 2⟩] [⟨"p1", 2⟩]
    o1c db1c c1c (by decide) (by decide)).1 (by decide) (by decide)

/-! ### Error-taxonomy lemmas -/

theorem priceItems_error_kind (r : List Product) (items : List OrderItemInput)
    (e : ServiceError) (h : priceItems r items = .error e) : e.kind = .badRequest := by
  induction items with
  | nil => rw [priceItems] at h; cases h
  | cons it rest ih =>
    rw [priceItems] at h
    split at h
    · obtain rfl : (⟨.badRequest, .productNotFound it.productId⟩ : ServiceError) = e := by
        simpa using h
      rfl
    · split at h
      · obtain rfl : (⟨.badRequest, .nonPositiveQty⟩ : ServiceError) = e := by
          simpa using h
        rfl
      · rename_i p hfind hqty
        split at h
        · obtain rfl :
              (⟨.badRequest, .insufficientStock p.title p.stock it.qty⟩ : ServiceError) = e := by
            simpa using h
          rfl
        · split at h
          · rename_i e' herr
            obtain rfl : e' = e := by simpa using h
            exact ih herr
          · cases h

theorem validateAndPrice_error_kind (db : DB) (items : List OrderItemInput)
    (e : ServiceError) (h : validateAndPrice db items = .error e) :
    e.kind = .badRequest := by
  rw [validateAndPrice] at h
  split at h
  · obtain rfl : (⟨.badRequest, .emptyItems⟩ : ServiceError) = e := by simpa using h
    rfl
  · simp only [] at h
    split at h
    · obtain rfl : (⟨.badRequest, .productsNotFound⟩ : ServiceError) = e := by
        simpa using h
      rfl
    · exact priceItems_error_kind _ _ _ h

theorem priceItems_error_insufficient (r : List Product) (items : List OrderItemInput)
    (t : String) (a req : Int)
    (h : priceItems r items = .error ⟨.badRequest, .insufficientStock t a req⟩) :
    ∃ it ∈ items, ∃ p, r.find? (fun q => q.id == it.productId) = some p
      ∧ p.title = t ∧ p.stock = a ∧ it.qty = req ∧ a < req := by
  induction items with
  | nil => rw [priceItems] at h; cases h
  | cons it rest ih =>
    rw [priceItems] at h
    split at h
    · simp at h
    · rename_i p hfind
      split at h
      · simp at h
      · rename_i hqty
        split at h
        · rename_i hstock
          have hmsg : p.title = t ∧ p.stock = a ∧ it.qty = req := by simpa using h
          exact ⟨it, List.mem_cons_self it rest, p, hfind, hmsg.1, hmsg.2.1, hmsg.2.2,
            by rw [← hmsg.2.1, ← hmsg.2.2]; exact hstock⟩
        · split at h
          · rename_i e' herr
            obtain rfl : e' = ⟨.badRequest, .insufficientStock t a req⟩ := by simpa using h
            obtain ⟨it', hit', hrest⟩ := ih herr
            exact ⟨it', List.mem_cons_of_mem _ hit', hrest⟩
          · cases h

theorem validateAndPrice_error_insufficient (db : DB) (items : List OrderItemInput)
    (t : String) (a req : Int)
    (h : validateAndPrice db items = .error ⟨.badRequest, .insufficientStock t a req⟩) :
    ∃ it ∈ items, ∃ p ∈ db.products, p.isActive = true ∧ p.id = it.productId
      ∧ p.title = t ∧ p.stock = a ∧ it.qty = req ∧ a < req := by
  rw [validateAndPrice] at h
  split at h
  · simp at h
  · simp only [] at h
    split at h
    · simp at h
    · obtain ⟨it, hit, p, hfind, h1, h2, h3, h4⟩ :=
        priceItems_error_insufficient _ _ _ _ _ h
      have hpmem := mem_findByIds (List.mem_of_find?_eq_some hfind)
      have hpid : p.id = it.productId := by simpa using List.find?_some hfind
      exact ⟨it, hit, p, hpmem.1, hpmem.2, hpid, h1, h2, h3, h4⟩

theorem validateAndPrice_unresolvable (db : DB) (items : List OrderItemInput)
    (it : OrderItemInput) (hwf : db.WF) (hit : it ∈ items)
    (habs : ¬ resolvesActive db it.productId) :
    validateAndPrice db items = .error ⟨.badRequest, .productsNotFound⟩ := by
  have hne : ¬ items.length = 0 := by
    intro h0
    rw [List.length_eq_zero] at h0
    subst h0
    cases hit
  have hlen : (findByIds db (items.map (·.productId))).length
      ≠ (items.map (·.productId)).length := by
    intro heq
    exact habs (((findByIds_length_eq_iff db _ hwf.1).1 heq).2 it.productId
      (List.mem_map_of_mem _ hit))
  rw [validateAndPrice, if_neg hne]
  simp only []
  rw [if_pos hlen]

/-- C5 (amended): every rejection raised by `create` carries the
`BadRequestException` class — never Conflict or NotFound; an
insufficient-stock rejection's message carries the offending product's
title, its currently available stock and the requested quantity; and a
placement referencing a product id with no active catalog row is rejected
with the aggregate products-not-found `BadRequestException`. -/
theorem C5_error_taxonomy :
    (∀ (db : DB) (cache : Cache) (now : Nat) (userId : String)
       (items : List OrderItemInput) (key : Option String)
       (e : ServiceError) (db' : DB) (c' : Cache),
       create db cache now userId items key = (.error e, db', c') →
       e.kind = .badRequest)
    ∧ (∀ (db : DB) (items : List OrderItemInput) (t : String) (a req : Int),
        validateAndPrice db items
            = .error ⟨.badRequest, .insufficientStock t a req⟩ →
        ∃ it ∈ items, ∃ p ∈ db.products, p.isActive = true ∧ p.id = it.productId
          ∧ p.title = t ∧ p.stock = a ∧ it.qty = req ∧ a < req)
    ∧ (∀ (db : DB) (items : List OrderItemInput) (it : OrderItemInput),
        db.WF → it ∈ items → ¬ resolvesActive db it.productId →
        validateAndPrice db items = .error ⟨.badRequest, .productsNotFound⟩) := by
  refine ⟨?_, ?_, ?_⟩
  · intro db cache now userId items key e db' c' h
    exact validateAndPrice_error_kind db items e (create_error h).1
  · intro db items t a req h
    exact validateAndPrice_error_insufficient db items t a req h
  · intro db items it hwf hit habs
    exact validateAndPrice_unresolvable db items it hwf hit habs

/-- Witness for C5: the concrete insufficient-stock rejection is a
BadRequest, and a reference to the inexistent id `missing` yields the
products-not-found BadRequest. -/
theorem C5_witness :
    (⟨ErrKind.badRequest, ErrMsg.insufficientStock "Widget" 5 9⟩ : ServiceError).kind
        = ErrKind.badRequest
    ∧ validateAndPrice db0 [⟨"missing", 1⟩]
        = .error ⟨.badRequest, .productsNotFound⟩ :=
  ⟨C5_error_taxonomy.1 db0 emptyCache 0 "u1" [⟨"p1", 9⟩] none
      ⟨.badRequest, .insufficientStock "Widget" 5 9⟩ db0 emptyCache (by decide),
   C5_error_taxonomy.2.2 db0 [⟨"missing", 1⟩] ⟨"missing", 1⟩ (by decide) (by decide)
      (by decide)⟩

/-! ### First-offending-item lemmas -/

theorem priceItems_msg_ne_productsNotFound (r : List Product)
    (items : List OrderItemInput) (e : ServiceError)
    (h : priceItems r items = .error e) : e.msg ≠ .productsNotFound := by
  induction items with
  | nil => rw [priceItems] at h; cases h
  | cons it rest ih =>
    rw [priceItems] at h
    split at h
    · obtain rfl : (⟨.badRequest, .productNotFound it.productId⟩ : ServiceError) = e := by
        simpa using h
      simp
    · split at h
      · obtain rfl : (⟨.badRequest, .nonPositiveQty⟩ : ServiceError) = e := by
          simpa using h
        simp
      · rename_i p hfind hqty
        split at h
        · obtain rfl :
              (⟨.badRequest, .insufficientStock p.title p.stock it.qty⟩ : ServiceError)
                = e := by
            simpa using h
          simp
        · split at h
          · rename_i e' herr
            obtain rfl : e' = e := by simpa using h
            exact ih herr
          · cases h

theorem validateAndPrice_eq_priceItems (db : DB) (items : List OrderItemInput)
    (hwf : db.WF) (hne : items ≠ [])
    (hnd : (items.map (·.productId)).Nodup)
    (hres : ∀ it ∈ items, resolvesActive db it.productId) :
    validateAndPrice db items
      = priceItems (findByIds db (items.map (·.productId))) items := by
  have hne0 : ¬ items.length = 0 := by
    intro h0
    rw [List.length_eq_zero] at h0
    exact hne h0
  have hlen : (findByIds db (items.map (·.productId))).length
      = (items.map (·.productId)).length :=
    (findByIds_length_eq_iff db _ hwf.1).2
      ⟨hnd, fun i hi => by
        obtain ⟨it, hit, rfl⟩ := List.mem_map.1 hi
        exact hres it hit⟩
  rw [validateAndPrice, if_neg hne0]
  simp only []
  rw [if_neg (fun hcon => hcon hlen)]

theorem priceItems_append_error (r : List Product) (pre tail : List OrderItemInput)
    (e : ServiceError)
    (hpass : ∀ it ∈ pre, ∃ p, r.find? (fun q => q.id == it.productId) = some p
      ∧ 0 < it.qty ∧ it.qty ≤ p.stock)
    (htail : priceItems r tail = .error e) :
    priceItems r (pre ++ tail) = .error e := by
  induction pre with
  | nil => simpa using htail
  | cons it pre' ih =>
    obtain ⟨p, hfind, h0, hle⟩ := hpass it (List.mem_cons_self it pre')
    rw [List.cons_append]
    simp only [priceItems, hfind]
    rw [if_neg (by omega), if_neg (by omega),
      ih (fun a ha => hpass a (List.mem_cons_of_mem _ ha))]

theorem priceItems_head_qty (r : List Product) (it : OrderItemInput)
    (rest : List OrderItemInput) (p : Product)
    (hfind : r.find? (fun q => q.id == it.productId) = some p)
    (hqty : it.qty ≤ 0) :
    priceItems r (it :: rest) = .error ⟨.badRequest, .nonPositiveQty⟩ := by
  simp only [priceItems, hfind]
  rw [if_pos hqty]

theorem priceItems_head_stock (r : List Product) (it : OrderItemInput)
    (rest : List OrderItemInput) (p : Product)
    (hfind : r.find? (fun q => q.id == it.productId) = some p)
    (hqty : ¬ it.qty ≤ 0) (hstock : p.stock < it.qty) :
    priceItems r (it :: rest)
      = .error ⟨.badRequest, .insufficientStock p.title p.stock it.qty⟩ := by
  simp only [priceItems, hfind]
  rw [if_neg hqty, if_pos hstock]

/-- C6 (amended): the aggregate count check runs before the per-item loop,
so a non-empty order is rejected as products-not-found exactly when its item
list fails to be duplicate-free with every product id resolving to an active
catalog row; when every id resolves and ids are distinct, the not-found
rejection is impossible and the remaining per-item checks are applied in the
caller-supplied order, reporting the first offending item — in particular,
when an earlier item has a non-positive quantity while only a later item is
unresolvable, the reported error is the aggregate not-found error, an
instance of the first conjunct. -/
theorem C6_validation_order (db : DB) (items : List OrderItemInput)
    (hwf : db.WF) (hne : items ≠ []) :
    (validateAndPrice db items = .error ⟨.badRequest, .productsNotFound⟩
      ↔ ¬ ((items.map (·.productId)).Nodup
            ∧ ∀ it ∈ items, resolvesActive db it.productId))
    ∧ ((items.map (·.productId)).Nodup →
       (∀ it ∈ items, resolvesActive db it.productId) →
       ∀ pre it rest, items = pre ++ it :: rest →
         (∀ a ∈ pre, 0 < a.qty ∧
           ∀ p, activeProductFor db a.productId = some p → a.qty ≤ p.stock) →
         (it.qty ≤ 0 →
           validateAndPrice db items = .error ⟨.badRequest, .nonPositiveQty⟩)
         ∧ (∀ p, activeProductFor db it.productId = some p →
             ¬ it.qty ≤ 0 → p.stock < it.qty →
             validateAndPrice db items
               = .error ⟨.badRequest, .insufficientStock p.title p.stock it.qty⟩)) := by
  constructor
  · constructor
    · intro herr hcon
      obtain ⟨hnd, hres⟩ := hcon
      rw [validateAndPrice_eq_priceItems db items hwf hne hnd hres] at herr
      exact priceItems_msg_ne_productsNotFound _ _ _ herr rfl
    · intro hcon
      have hne0 : ¬ items.length = 0 := by
        intro h0
        rw [List.length_eq_zero] at h0
        exact hne h0
      have hlen : (findByIds db (items.map (·.productId))).length
          ≠ (items.map (·.productId)).length := by
        intro heq
        obtain ⟨hnd, hres⟩ := (findByIds_length_eq_iff db _ hwf.1).1 heq
        exact hcon ⟨hnd, fun it hit => hres it.productId (List.mem_map_of_mem _ hit)⟩
      rw [validateAndPrice, if_neg hne0]
      simp only []
      rw [if_pos hlen]
  · intro hnd hres pre it rest heq hpass
    subst heq
    have hr := validateAndPrice_eq_priceItems db (pre ++ it :: rest) hwf hne hnd hres
    have hpass' : ∀ a ∈ pre, ∃ p,
        (findByIds db ((pre ++ it :: rest).map (·.productId))).find?
            (fun q => q.id == a.productId) = some p
          ∧ 0 < a.qty ∧ a.qty ≤ p.stock := by
      intro a ha
      have hamem : a ∈ pre ++ it :: rest := List.mem_append_left _ ha
      have hfa := find?_findByIds db ((pre ++ it :: rest).map (·.productId)) a.productId
        (List.mem_map_of_mem _ hamem)
      obtain ⟨p, hp, hact, hpid⟩ := hres a hamem
      have hap : activeProductFor db a.productId = some p :=
        activeProductFor_eq_some db p a.productId hwf.1 hp hact hpid
      exact ⟨p, by rw [hfa, hap], (hpass a ha).1, (hpass a ha).2 p hap⟩
    have hitmem : it ∈ pre ++ it :: rest :=
      List.mem_append_right _ (List.mem_cons_self _ _)
    have hfind_it := find?_findByIds db ((pre ++ it :: rest).map (·.productId))
      it.productId (List.mem_map_of_mem _ hitmem)
    constructor
    · intro hq
      obtain ⟨p, hp, hact, hpid⟩ := hres it hitmem
      have hap := activeProductFor_eq_some db p it.productId hwf.1 hp hact hpid
      rw [hr]
      exact priceItems_append_error _ _ _ _ hpass'
        (priceItems_head_qty _ _ _ p (by rw [hfind_it, hap]) hq)
    · intro p hap hq hstock
      rw [hr]
      exact priceItems_append_error _ _ _ _ hpass'
        (priceItems_head_stock _ _ _ p (by rw [hfind_it, hap]) hq hstock)

/-- Witness for C6: a single non-positive-quantity item of a resolvable
product yields the quantity error, and a single unresolvable id yields the
aggregate not-found error. -/
theorem C6_witness :
    validateAndPrice db0 [⟨"p1", 0⟩] = .error ⟨.badRequest, .nonPositiveQty⟩
    ∧ validateAndPrice db0 [⟨"missing", 1⟩]
        = .error ⟨.badRequest, .productsNotFound⟩ :=
  ⟨((C6_validation_order db0 [⟨"p1", 0⟩] (by decide) (by decide)).2 (by decide)
      (by decide) [] ⟨"p1", 0⟩ [] rfl (by simp)).1 (by decide),
   (C6_validation_order db0 [⟨"missing", 1⟩] (by decide) (by decide)).1.2 (by decide)⟩

end MiniOrders
